import Mathlib

/-!
Verification development for the RLGridNavigation backend: a tabular
Q-learning agent (`agent.py`), a deterministic grid-world environment
(`environment.py`), and the serving operations (`main.py`).

Modelling conventions:
* Python `float` values are modelled by `ℚ` (all constants in the source are
  exact decimals, and no claim depends on floating-point rounding).
* Python `dict` objects are modelled by insertion-ordered association lists
  (`alSet` replaces in place on an existing key and appends on a new key,
  exactly like `d[k] = v`; `alGet` is `d.get(k)`).
* A state key `tuple(state)` is modelled by the list of coordinates
  (`List Int`); grid positions, which are two-element lists in the source,
  are modelled by `Int × Int`.
* Python's `random` only affects which of the four actions is returned by
  `choose_action`; its deterministic side effect on the Q-table
  (`choose_action_table`) and the deterministic greedy candidate set
  (`best_actions`) are modelled separately.
* `pickle.dumps`/`pickle.loads` round-tripping is a library guarantee; the
  pickled payload `{"q_table": ..., "epsilon": ...}` is modelled by the
  structure `AgentBytes`, and a byte sequence that fails to unpickle by
  `ByteData.corrupt`.
-/

namespace RLGrid

/-- The fixed action set `ACTIONS = ['up', 'down', 'left', 'right']` of
`agent.py`. -/
inductive Action where
  | up
  | down
  | left
  | right
deriving DecidableEq, Repr

/-- The list `ACTIONS` in the source order. -/
def ACTIONS : List Action := [Action.up, Action.down, Action.left, Action.right]

/-- The wire string for an action, as used by the HTTP layer in `main.py`. -/
def Action.toWire : Action → String
  | Action.up => "up"
  | Action.down => "down"
  | Action.left => "left"
  | Action.right => "right"

section AssocList

variable {α : Type _} {β : Type _} [DecidableEq α]

/-- Python `d.get(k)`: first binding of the key in an insertion-ordered
dictionary, modelled as an association list. -/
def alGet : List (α × β) → α → Option β
  | [], _ => none
  | (k, v) :: rest, k' => if k = k' then some v else alGet rest k'

/-- Python `d[k] = v`: replace the value at an existing key in place,
append a new binding otherwise. -/
def alSet : List (α × β) → α → β → List (α × β)
  | [], k', v' => [(k', v')]
  | (k, v) :: rest, k', v' =>
      if k = k' then (k', v') :: rest else (k, v) :: alSet rest k' v'

end AssocList

/-- A Q-table row: the dictionary `{action: q_value}` for one state key. -/
def QRow : Type := List (Action × ℚ)

/-- The fresh row `{a: 0.0 for a in ACTIONS}` created on first sight of a
state key. -/
def zeroRow : QRow :=
  [(Action.up, 0), (Action.down, 0), (Action.left, 0), (Action.right, 0)]

/-- Python `max(row.values())`: the maximum over the dictionary's values
(rows are never empty in reachable states; the `[]` branch is dead and
returns 0). -/
def rowMax (r : QRow) : ℚ :=
  match r.map Prod.snd with
  | [] => 0
  | v :: vs => vs.foldl max v

/-- The agent's Q-table: dictionary from state key to row. -/
def QTable : Type := List (List Int × QRow)

/-- `if state_key not in self.q_table: self.q_table[state_key] = {a: 0.0 ...}`
— the lookup-or-initialize step shared by `get_q`, `choose_action` and
`learn`. -/
def ensureRow (tbl : QTable) (s : List Int) : QTable :=
  if (alGet tbl s).isSome then tbl else alSet tbl s zeroRow

/-- The value of one table entry with the 0.0 default for an unseen state
key (the view under which freshly-created all-zero rows are
indistinguishable from absent rows). -/
def qVal (tbl : QTable) (s : List Int) (act : Action) : ℚ :=
  match alGet tbl s with
  | none => 0
  | some row => (alGet row act).getD 0

/-- The `QLearningAgent` object of `agent.py`: hyperparameters, Q-table and
the pending `(prev_state, prev_action)` memory. -/
structure Agent where
  alpha : ℚ
  gamma : ℚ
  epsilon : ℚ
  epsilon_min : ℚ
  epsilon_decay : ℚ
  q_table : QTable
  prev_state : Option (List Int)
  prev_action : Option Action

/-- `QLearningAgent.__init__`. -/
def Agent.init : Agent :=
  { alpha := 1/10
    gamma := 99/100
    epsilon := 1
    epsilon_min := 1/20
    epsilon_decay := 995/1000
    q_table := []
    prev_state := none
    prev_action := none }

/-- `QLearningAgent.get_q`: ensure the row exists, return the Q-value.
Under the complete-rows invariant both dictionary lookups succeed, so the
`getD` defaults are never taken on reachable states. -/
def Agent.get_q (a : Agent) (state : List Int) (action : Action) : Agent × ℚ :=
  let tbl := ensureRow a.q_table state
  ({ a with q_table := tbl }, (alGet ((alGet tbl state).getD []) action).getD 0)

/-- The deterministic Q-table side effect of `QLearningAgent.choose_action`:
both the exploration and the exploitation branch first initialize the state's
row if it is new, and neither branch changes anything else. -/
def Agent.choose_action_table (a : Agent) (state : List Int) : Agent :=
  { a with q_table := ensureRow a.q_table state }

/-- The exploitation candidate list of `choose_action`:
`[a for a, q in q_values.items() if q == max_q]`, the greedy actions among
which the tie is broken uniformly at random. -/
def Agent.best_actions (a : Agent) (state : List Int) : List Action :=
  let row := (alGet (ensureRow a.q_table state) state).getD []
  let max_q := rowMax row
  (row.filter (fun p => p.2 = max_q)).map Prod.fst

/-- `QLearningAgent.learn(current_state, reward, done)`. -/
def Agent.learn (a : Agent) (current_state : List Int) (reward : ℚ)
    (done : Bool) : Agent :=
  match a.prev_state, a.prev_action with
  | some ps, some pa =>
      let p1 := a.get_q ps pa
      let a1 := p1.1
      let old_value := p1.2
      let p2 : Agent × ℚ :=
        if done then (a1, 0)
        else
          let tbl := ensureRow a1.q_table current_state
          ({ a1 with q_table := tbl }, rowMax ((alGet tbl current_state).getD []))
      let a2 := p2.1
      let next_max := p2.2
      let target := reward + a.gamma * next_max
      let new_value := old_value + a.alpha * (target - old_value)
      let row := (alGet a2.q_table ps).getD []
      let a3 := { a2 with q_table := alSet a2.q_table ps (alSet row pa new_value) }
      if done then
        { a3 with
          prev_state := none
          prev_action := none
          epsilon := max a.epsilon_min (a.epsilon * a.epsilon_decay) }
      else a3
  | _, _ => a

/-- `QLearningAgent.update_memory`. -/
def Agent.update_memory (a : Agent) (state : List Int) (action : Action) : Agent :=
  { a with prev_state := some state, prev_action := some action }

/-- The pickled payload of `to_bytes`: `{"q_table": ..., "epsilon": ...}`. -/
structure AgentBytes where
  q_table : QTable
  epsilon : ℚ

/-- `QLearningAgent.to_bytes` (the payload handed to `pickle.dumps`). -/
def Agent.to_bytes (a : Agent) : AgentBytes :=
  { q_table := a.q_table, epsilon := a.epsilon }

/-- A persisted byte sequence: either it unpickles to a payload or
`pickle.loads` raises `UnpicklingError` on it. -/
inductive ByteData where
  | valid (payload : AgentBytes)
  | corrupt

/-- `QLearningAgent.from_bytes`: `pickle.loads` raises before any field is
assigned on corrupt data, so the error branch returns no agent and the
caller's agent is untouched. -/
def Agent.from_bytes (a : Agent) : ByteData → Except Unit Agent
  | ByteData.valid p => Except.ok { a with q_table := p.q_table, epsilon := p.epsilon }
  | ByteData.corrupt => Except.error ()

/-- The `GridWorld` object of `environment.py`. -/
structure GridWorld where
  height : Int
  width : Int
  starting_position : Int × Int
  target_position : Int × Int
  obstacles : List (Int × Int)
  current_position : Int × Int
  max_steps : Int
  steps : Int

/-- `GridWorld.__init__` with explicit arguments (the Python `None`
defaults fill in `[0, 0]`, `[8, 8]` and the empty obstacle list). -/
def GridWorld.init (height width : Int) (starting_position target_position : Int × Int)
    (obstacles : List (Int × Int)) : GridWorld :=
  { height := height
    width := width
    starting_position := starting_position
    target_position := target_position
    obstacles := obstacles
    current_position := starting_position
    max_steps := height * width
    steps := 0 }

/-- `GridWorld.reset`. -/
def GridWorld.reset (g : GridWorld) : GridWorld :=
  { g with current_position := g.starting_position, steps := 0 }

/-- The payload returned by `GridWorld.step` (the `state` field of the dict
is the position/target pair). -/
structure StepResult where
  position : Int × Int
  target : Int × Int
  reward : ℚ
  done : Bool
  steps : Int
  max_steps : Int

/-- `GridWorld.step(action)`: move one cell, bounce off walls and
obstacles, override with the goal bonus on the target, force `done` at the
step limit. -/
def GridWorld.step (g : GridWorld) (action : Action) : GridWorld × StepResult :=
  let x := g.current_position.1
  let y := g.current_position.2
  let moved : Int × Int × ℚ :=
    match action with
    | Action.up => if y > 0 then (x, y - 1, -1/100) else (x, y, -1/10)
    | Action.down => if y < g.height - 1 then (x, y + 1, -1/100) else (x, y, -1/10)
    | Action.left => if x > 0 then (x - 1, y, -1/100) else (x, y, -1/10)
    | Action.right => if x < g.width - 1 then (x + 1, y, -1/100) else (x, y, -1/10)
  let pos₁ : Int × Int := (moved.1, moved.2.1)
  let reward₁ : ℚ := moved.2.2
  let pos₂ : Int × Int := if pos₁ ∈ g.obstacles then (x, y) else pos₁
  let reward₂ : ℚ := if pos₁ ∈ g.obstacles then -1/10 else reward₁
  let g' := { g with current_position := pos₂, steps := g.steps + 1 }
  let hitTarget : Bool := decide (pos₂ = g.target_position)
  let reward₃ : ℚ := if hitTarget then 1 else reward₂
  let done₁ : Bool := hitTarget
  let done₂ : Bool := if g'.steps ≥ g.max_steps then true else done₁
  (g', { position := pos₂
         target := g.target_position
         reward := reward₃
         done := done₂
         steps := g'.steps
         max_steps := g.max_steps })

/-- The body of the `/act` response in `main.py` (`ActionResponse`). -/
structure ActionResponse where
  action : String
  epsilon : ℚ

/-- The `/act` endpoint of `main.py`, parameterized by the random selection
`choose` that `choose_action` performs among the four actions (the
endpoint's control flow does not depend on which action comes back). -/
def act (choose : Agent → List Int → Action) (a : Agent) (position : List Int)
    (reward : ℚ) (done : Bool) : Agent × ActionResponse :=
  let a1 := a.learn position reward done
  if done then (a1, { action := "stop", epsilon := a1.epsilon })
  else
    let a2 := a1.choose_action_table position
    let action := choose a2 position
    let a3 := a2.update_memory position action
    (a3, { action := action.toWire, epsilon := a3.epsilon })

/-- Outcome of `/models/{id}/load`: the 404 raised when the row is missing,
or the unpickling exception propagating out of `from_bytes` (surfaced by the
framework as a plain server error, not a 404). -/
inductive LoadError where
  | notFound
  | deserialization
deriving DecidableEq

/-- `/models/{id}/load` of `main.py`: the persisted store modelled as a map
from id to stored bytes. Returns the post-call global agent together with
the outcome (the successful response carries the loaded epsilon). -/
def load_model (a : Agent) (db : List (Nat × ByteData)) (model_id : Nat) :
    Agent × Except LoadError ℚ :=
  match alGet db model_id with
  | none => (a, Except.error LoadError.notFound)
  | some bd =>
      match a.from_bytes bd with
      | Except.error _ => (a, Except.error LoadError.deserialization)
      | Except.ok a₁ => (a₁, Except.ok a₁.epsilon)

/-- One call of the agent's public interface (for stating the table-shape
invariant over arbitrary interaction sequences). -/
inductive AgentCall where
  | getQ (state : List Int) (action : Action)
  | chooseAction (state : List Int)
  | learnStep (state : List Int) (reward : ℚ) (done : Bool)
  | updateMemory (state : List Int) (action : Action)

/-- Apply one interface call to the agent (for `choose_action` only its
Q-table side effect matters to the agent's state). -/
def applyCall (a : Agent) : AgentCall → Agent
  | AgentCall.getQ s action => (a.get_q s action).1
  | AgentCall.chooseAction s => a.choose_action_table s
  | AgentCall.learnStep s r d => a.learn s r d
  | AgentCall.updateMemory s action => a.update_memory s action

/-- Run a sequence of interface calls. -/
def runCalls (a : Agent) (calls : List AgentCall) : Agent :=
  calls.foldl applyCall a

/-- A row that binds every one of the four actions (no partial rows). -/
def completeRow (r : QRow) : Prop :=
  ∀ action : Action, (alGet r action).isSome = true

/-- Every state key present in the table has a complete row. -/
def tableComplete (tbl : QTable) : Prop :=
  ∀ s row, alGet tbl s = some row → completeRow row

/-- Run a sequence of environment steps, keeping only the environment. -/
def runGW (g : GridWorld) (actions : List Action) : GridWorld :=
  actions.foldl (fun h action => (h.step action).1) g

/-- The candidate one-cell move of `step`: the position the per-action
branches of `step` write when the move is not blocked. -/
def candidate (g : GridWorld) (action : Action) : Int × Int :=
  match action with
  | Action.up => (g.current_position.1, g.current_position.2 - 1)
  | Action.down => (g.current_position.1, g.current_position.2 + 1)
  | Action.left => (g.current_position.1 - 1, g.current_position.2)
  | Action.right => (g.current_position.1 + 1, g.current_position.2)

/-- A position inside the grid: `0 ≤ x < width` and `0 ≤ y < height`, the
coordinate ranges the design fixes for all positions. -/
def inBounds (g : GridWorld) (p : Int × Int) : Prop :=
  0 ≤ p.1 ∧ p.1 < g.width ∧ 0 ≤ p.2 ∧ p.2 < g.height

instance (g : GridWorld) (p : Int × Int) : Decidable (inBounds g p) := by
  unfold inBounds
  exact inferInstance

/-- The maximum of a state's row, with the value a freshly-created zero row
would have when the state is unseen. -/
def rowMaxOf (tbl : QTable) (s : List Int) : ℚ :=
  match alGet tbl s with
  | none => 0
  | some row => rowMax row

/-- A freshly constructed agent that has just remembered one transition
(state [0, 0], action up) — the smallest state with a pending memory. -/
def pendingAgent : Agent :=
  Agent.init.update_memory [0, 0] Action.up

/-- An agent with a pending transition whose hyperparameters sit inside the
ranges the design allows (`ε_decay = 1 ∈ (0, 1]`, `ε = 1/2 ≥ ε_min = 1/20`)
but with no decay margin. -/
def decayOneAgent : Agent :=
  { alpha := 1/10
    gamma := 99/100
    epsilon := 1/2
    epsilon_min := 1/20
    epsilon_decay := 1
    q_table := []
    prev_state := some [0, 0]
    prev_action := some Action.up }

section AssocLemmas

variable {α : Type _} {β : Type _} [DecidableEq α]

theorem alGet_alSet_self (l : List (α × β)) (k : α) (v : β) :
    alGet (alSet l k v) k = some v := by
  induction l with
  | nil => simp [alSet, alGet]
  | cons hd tl ih =>
      obtain ⟨k₀, v₀⟩ := hd
      by_cases hk : k₀ = k
      · subst hk
        simp [alSet, alGet]
      · simp [alSet, alGet, hk, ih]

theorem alGet_alSet_ne (l : List (α × β)) (k k' : α) (v : β) (h : k ≠ k') :
    alGet (alSet l k v) k' = alGet l k' := by
  induction l with
  | nil => simp [alSet, alGet, h]
  | cons hd tl ih =>
      obtain ⟨k₀, v₀⟩ := hd
      by_cases hk : k₀ = k
      · subst hk
        simp [alSet, alGet, h, ih]
      · by_cases hk' : k₀ = k'
        · subst hk'
          simp [alSet, alGet, hk]
        · simp [alSet, alGet, hk, hk', ih]

theorem alGet_alSet_isSome (l : List (α × β)) (k k' : α) (v : β)
    (h : (alGet l k').isSome = true) :
    (alGet (alSet l k v) k').isSome = true := by
  by_cases hk : k = k'
  · subst hk
    simp [alGet_alSet_self]
  · rwa [alGet_alSet_ne l k k' v hk]

end AssocLemmas

theorem ensureRow_of_isSome (tbl : QTable) (s : List Int)
    (h : (alGet tbl s).isSome = true) : ensureRow tbl s = tbl := by
  simp [ensureRow, h]

theorem ensureRow_of_none (tbl : QTable) (s : List Int)
    (h : alGet tbl s = none) : ensureRow tbl s = alSet tbl s zeroRow := by
  simp [ensureRow, h]

theorem alGet_ensureRow_self (tbl : QTable) (s : List Int) :
    (alGet (ensureRow tbl s) s).isSome = true := by
  rcases h : alGet tbl s with _ | row
  · rw [ensureRow_of_none tbl s h, alGet_alSet_self]
    rfl
  · rw [ensureRow_of_isSome tbl s (by simp [h]), h]
    rfl

theorem alGet_ensureRow_ne (tbl : QTable) (s s' : List Int) (h : s ≠ s') :
    alGet (ensureRow tbl s) s' = alGet tbl s' := by
  rcases hs : alGet tbl s with _ | row
  · rw [ensureRow_of_none tbl s hs, alGet_alSet_ne tbl s s' zeroRow h]
  · rw [ensureRow_of_isSome tbl s (by simp [hs])]

theorem alGet_zeroRow (action : Action) : alGet zeroRow action = some 0 := by
  cases action <;> rfl

theorem qVal_ensureRow (tbl : QTable) (s s' : List Int) (action : Action) :
    qVal (ensureRow tbl s) s' action = qVal tbl s' action := by
  by_cases h : s = s'
  · subst h
    rcases hs : alGet tbl s with _ | row
    · rw [qVal, ensureRow_of_none tbl s hs, alGet_alSet_self, qVal, hs]
      simp [alGet_zeroRow]
    · rw [qVal, ensureRow_of_isSome tbl s (by simp [hs]), hs, qVal, hs]
  · rw [qVal, alGet_ensureRow_ne tbl s s' h, qVal]

theorem rowMax_zeroRow : rowMax zeroRow = 0 := by decide

theorem rowMaxOf_ensureRow_self (tbl : QTable) (s : List Int) :
    rowMax ((alGet (ensureRow tbl s) s).getD []) = rowMaxOf tbl s := by
  rcases hs : alGet tbl s with _ | row
  · rw [ensureRow_of_none tbl s hs, alGet_alSet_self, rowMaxOf, hs]
    exact rowMax_zeroRow
  · rw [ensureRow_of_isSome tbl s (by simp [hs]), hs, rowMaxOf, hs]
    rfl

theorem learn_no_memory (a : Agent) (s : List Int) (r : ℚ) (d : Bool)
    (h : a.prev_state = none ∨ a.prev_action = none) :
    a.learn s r d = a := by
  obtain ⟨al, ga, ep, em, ed, qt, pst, pac⟩ := a
  rcases h with h | h <;> dsimp only at h <;> subst h
  · rfl
  · cases pst <;> rfl

theorem learn_done_eq (a : Agent) (ps : List Int) (pa : Action) (s : List Int)
    (r : ℚ) (hps : a.prev_state = some ps) (hpa : a.prev_action = some pa) :
    a.learn s r true =
      (let tbl := ensureRow a.q_table ps
       let old := (alGet ((alGet tbl ps).getD []) pa).getD 0
       { a with
         q_table :=
           alSet tbl ps
             (alSet ((alGet tbl ps).getD []) pa
               (old + a.alpha * ((r + a.gamma * 0) - old)))
         prev_state := none
         prev_action := none
         epsilon := max a.epsilon_min (a.epsilon * a.epsilon_decay) }) := by
  unfold Agent.learn
  rw [hps, hpa]
  rfl

theorem learn_not_done_eq (a : Agent) (ps : List Int) (pa : Action)
    (s : List Int) (r : ℚ) (hps : a.prev_state = some ps)
    (hpa : a.prev_action = some pa) :
    a.learn s r false =
      (let tbl₁ := ensureRow a.q_table ps
       let old := (alGet ((alGet tbl₁ ps).getD []) pa).getD 0
       let tbl₂ := ensureRow tbl₁ s
       let nm := rowMax ((alGet tbl₂ s).getD [])
       { a with
         q_table :=
           alSet tbl₂ ps
             (alSet ((alGet tbl₂ ps).getD []) pa
               (old + a.alpha * ((r + a.gamma * nm) - old))) }) := by
  obtain ⟨al, ga, ep, em, ed, qt, pst, pac⟩ := a
  dsimp only at hps hpa
  subst hps
  subst hpa
  rfl

theorem getD_qVal (tbl : QTable) (s : List Int) (act : Action) :
    (alGet ((alGet tbl s).getD []) act).getD 0 = qVal tbl s act := by
  rw [qVal]
  rcases alGet tbl s with _ | row
  · simp [alGet]
  · rfl

theorem getD_rowMax (tbl : QTable) (s : List Int) :
    rowMax ((alGet tbl s).getD []) = rowMaxOf tbl s := by
  rw [rowMaxOf]
  rcases alGet tbl s with _ | row
  · rfl
  · rfl

theorem rowMaxOf_ensureRow (tbl : QTable) (u s : List Int) :
    rowMaxOf (ensureRow tbl u) s = rowMaxOf tbl s := by
  by_cases hus : u = s
  · subst hus
    rcases hu : alGet tbl u with _ | row
    · rw [ensureRow_of_none tbl u hu, rowMaxOf, alGet_alSet_self, rowMaxOf, hu]
      simp [rowMax_zeroRow]
    · rw [ensureRow_of_isSome tbl u (by simp [hu])]
  · rw [rowMaxOf, alGet_ensureRow_ne tbl u s hus, rowMaxOf]

theorem alGet_ensureRow_isSome_mono (tbl : QTable) (u s : List Int)
    (h : (alGet tbl s).isSome = true) :
    (alGet (ensureRow tbl u) s).isSome = true := by
  by_cases hus : u = s
  · subst hus
    exact alGet_ensureRow_self tbl u
  · rwa [alGet_ensureRow_ne tbl u s hus]

theorem qVal_writeEntry_self (tbl : QTable) (ps : List Int) (pa : Action) (v : ℚ) :
    qVal (alSet tbl ps (alSet ((alGet tbl ps).getD []) pa v)) ps pa = v := by
  rw [qVal, alGet_alSet_self]
  simp [alGet_alSet_self]

theorem qVal_writeEntry_other (tbl : QTable) (ps : List Int) (pa : Action)
    (v : ℚ) (s' : List Int) (act' : Action) (hne : ¬(s' = ps ∧ act' = pa)) :
    qVal (alSet tbl ps (alSet ((alGet tbl ps).getD []) pa v)) s' act' =
      qVal tbl s' act' := by
  by_cases hs : s' = ps
  · subst hs
    have hact : pa ≠ act' := fun h => hne ⟨rfl, h.symm⟩
    rw [qVal, alGet_alSet_self]
    simp only [Option.getD_some]
    rw [alGet_alSet_ne _ pa act' v hact, getD_qVal]
  · rw [qVal, alGet_alSet_ne tbl ps s' _ (fun h => hs h.symm), qVal]

theorem completeRow_zeroRow : completeRow zeroRow := by
  intro act
  cases act <;> rfl

theorem completeRow_alSet (r : QRow) (pa : Action) (v : ℚ)
    (h : completeRow r) : completeRow (alSet r pa v) := by
  intro act
  by_cases hpa : pa = act
  · subst hpa
    rw [alGet_alSet_self]
    rfl
  · rw [alGet_alSet_ne r pa act v hpa]
    exact h act

theorem tableComplete_ensureRow (tbl : QTable) (s : List Int)
    (h : tableComplete tbl) : tableComplete (ensureRow tbl s) := by
  intro s' row h'
  rcases hs : alGet tbl s with _ | row₀
  · rw [ensureRow_of_none tbl s hs] at h'
    by_cases hss : s = s'
    · subst hss
      rw [alGet_alSet_self] at h'
      cases h'
      exact completeRow_zeroRow
    · rw [alGet_alSet_ne tbl s s' zeroRow hss] at h'
      exact h s' row h'
  · rw [ensureRow_of_isSome tbl s (by simp [hs])] at h'
    exact h s' row h'

theorem tableComplete_writeEntry (tbl : QTable) (ps : List Int) (pa : Action)
    (v : ℚ) (h : tableComplete tbl) (hs : (alGet tbl ps).isSome = true) :
    tableComplete (alSet tbl ps (alSet ((alGet tbl ps).getD []) pa v)) := by
  intro s' row h'
  by_cases hss : ps = s'
  · subst hss
    rw [alGet_alSet_self] at h'
    cases h'
    obtain ⟨row₀, hrow₀⟩ := Option.isSome_iff_exists.mp hs
    rw [hrow₀]
    exact completeRow_alSet row₀ pa v (h ps row₀ hrow₀)
  · rw [alGet_alSet_ne tbl ps s' _ hss] at h'
    exact h s' row h'

theorem tableComplete_learn (a : Agent) (s : List Int) (r : ℚ) (d : Bool)
    (h : tableComplete a.q_table) : tableComplete (a.learn s r d).q_table := by
  rcases hps : a.prev_state with _ | ps
  · rw [learn_no_memory a s r d (Or.inl hps)]
    exact h
  rcases hpa : a.prev_action with _ | pa
  · rw [learn_no_memory a s r d (Or.inr hpa)]
    exact h
  cases d
  · rw [learn_not_done_eq a ps pa s r hps hpa]
    exact tableComplete_writeEntry _ ps pa _
      (tableComplete_ensureRow _ s (tableComplete_ensureRow _ ps h))
      (alGet_ensureRow_isSome_mono _ s ps (alGet_ensureRow_self a.q_table ps))
  · rw [learn_done_eq a ps pa s r hps hpa]
    exact tableComplete_writeEntry _ ps pa _ (tableComplete_ensureRow _ ps h)
      (alGet_ensureRow_self a.q_table ps)

theorem tableComplete_applyCall (a : Agent) (c : AgentCall)
    (h : tableComplete a.q_table) : tableComplete (applyCall a c).q_table := by
  cases c with
  | getQ s action => exact tableComplete_ensureRow a.q_table s h
  | chooseAction s => exact tableComplete_ensureRow a.q_table s h
  | learnStep s r d => exact tableComplete_learn a s r d h
  | updateMemory s action => exact h

theorem step_steps (g : GridWorld) (action : Action) :
    (g.step action).1.steps = g.steps + 1 := by
  cases action <;> rfl

theorem step_max_steps (g : GridWorld) (action : Action) :
    (g.step action).1.max_steps = g.max_steps := by
  cases action <;> rfl

theorem step_done_of_timeout (g : GridWorld) (action : Action)
    (h : g.steps + 1 ≥ g.max_steps) : (g.step action).2.done = true := by
  cases action <;>
    · simp only [GridWorld.step]
      split_ifs <;> simp_all

theorem runGW_steps (g : GridWorld) (actions : List Action) :
    (runGW g actions).steps = g.steps + actions.length := by
  induction actions generalizing g with
  | nil => simp [runGW]
  | cons hd tl ih =>
      simp only [runGW, List.foldl_cons, List.length_cons] at *
      rw [ih, step_steps]
      push_cast
      ring

theorem runGW_max_steps (g : GridWorld) (actions : List Action) :
    (runGW g actions).max_steps = g.max_steps := by
  induction actions generalizing g with
  | nil => rfl
  | cons hd tl ih =>
      simp only [runGW, List.foldl_cons] at *
      rw [ih, step_max_steps]

/-- C2: whenever the position resulting from `step` (after any wall or
obstacle reversion) equals the target position, the returned reward is the
goal bonus 1.0 and the returned done flag is true, overriding any wall
penalty or step cost computed for that move. -/
theorem claim_C2 (g : GridWorld) (action : Action)
    (h : ((g.step action).1).current_position = g.target_position) :
    (g.step action).2.reward = 1 ∧ (g.step action).2.done = true := by
  cases action <;>
    · simp only [GridWorld.step] at h ⊢
      split_ifs at h ⊢ <;> simp_all

/-- Witness for C2: a 2×2 grid with target (0, 1); moving down from the
start (0, 0) reaches the target and yields reward 1 with done = true. -/
theorem claim_C2_witness :
    (((GridWorld.init 2 2 (0, 0) (0, 1) []).step Action.down).1).current_position
        = (GridWorld.init 2 2 (0, 0) (0, 1) []).target_position ∧
      ((GridWorld.init 2 2 (0, 0) (0, 1) []).step Action.down).2.reward = 1 ∧
      ((GridWorld.init 2 2 (0, 0) (0, 1) []).step Action.down).2.done = true :=
  ⟨by decide, claim_C2 (GridWorld.init 2 2 (0, 0) (0, 1) []) Action.down (by decide)⟩

/-- Counterexample to C3 as stated: on a 1×2 grid with the target off the
board, the second in-bounds move (right then left) lands on no obstacle and
not on the target and earns the step cost −0.01, yet `done` is true because
the step counter reaches `max_steps = 2` — the claim asserts `done = false`
for every such move. -/
theorem claim_C3_cex :
    (inBounds ((GridWorld.init 1 2 (0, 0) (5, 5) []).reset.step Action.right).1
        (candidate ((GridWorld.init 1 2 (0, 0) (5, 5) []).reset.step Action.right).1
          Action.left)) ∧
      candidate ((GridWorld.init 1 2 (0, 0) (5, 5) []).reset.step Action.right).1
          Action.left ∉
        ((GridWorld.init 1 2 (0, 0) (5, 5) []).reset.step Action.right).1.obstacles ∧
      candidate ((GridWorld.init 1 2 (0, 0) (5, 5) []).reset.step Action.right).1
          Action.left ≠
        ((GridWorld.init 1 2 (0, 0) (5, 5) []).reset.step Action.right).1.target_position ∧
      ((((GridWorld.init 1 2 (0, 0) (5, 5) []).reset.step Action.right).1).step
          Action.left).2.reward = -1/100 ∧
      ((((GridWorld.init 1 2 (0, 0) (5, 5) []).reset.step Action.right).1).step
          Action.left).2.done = true := by
  exact ⟨by decide, by decide, by decide, by rfl, by rfl⟩

/-- C3 (amended): a `step` whose candidate one-cell move stays inside the
grid bounds and lands neither on an obstacle cell nor on the target
position returns the fixed step cost −0.01, and returns done = false
provided the incremented step counter is still below `max_steps` (at the
step limit the move keeps the −0.01 reward but `done` is forced to true). -/
theorem claim_C3 (g : GridWorld) (action : Action)
    (hin : inBounds g (candidate g action))
    (hobs : candidate g action ∉ g.obstacles)
    (htgt : candidate g action ≠ g.target_position)
    (hst : g.steps + 1 < g.max_steps) :
    (g.step action).2.reward = -1/100 ∧ (g.step action).2.done = false := by
  obtain ⟨hx0, hxw, hy0, hyh⟩ := hin
  cases action <;>
    · simp only [GridWorld.step, candidate] at *
      split_ifs <;> simp_all <;> omega

/-- Witness for C3 (amended): moving down from (0, 0) on a fresh 3×3 grid
with target (2, 2) is an in-bounds, obstacle-free, non-target move well
below the step limit. -/
theorem claim_C3_witness :
    ((GridWorld.init 3 3 (0, 0) (2, 2) []).step Action.down).2.reward = -1/100 ∧
      ((GridWorld.init 3 3 (0, 0) (2, 2) []).step Action.down).2.done = false :=
  claim_C3 (GridWorld.init 3 3 (0, 0) (2, 2) []) Action.down (by decide) (by decide)
    (by decide) (by decide)

/-- Counterexample to C4 as stated: on a 2×2 grid whose start equals the
target (0, 0), moving up is blocked by the boundary, but because the
unchanged position coincides with the target the goal override fires and
the returned reward is 1.0, not the wall penalty −0.1. -/
theorem claim_C4_cex :
    (¬ inBounds (GridWorld.init 2 2 (0, 0) (0, 0) [])
        (candidate (GridWorld.init 2 2 (0, 0) (0, 0) []) Action.up) ∨
      candidate (GridWorld.init 2 2 (0, 0) (0, 0) []) Action.up ∈
        (GridWorld.init 2 2 (0, 0) (0, 0) []).obstacles) ∧
      ((GridWorld.init 2 2 (0, 0) (0, 0) []).step Action.up).1.current_position =
        (GridWorld.init 2 2 (0, 0) (0, 0) []).current_position ∧
      ((GridWorld.init 2 2 (0, 0) (0, 0) []).step Action.up).2.reward = 1 ∧
      (1 : ℚ) ≠ -1/10 := by
  exact ⟨Or.inl (by decide), by rfl, by rfl, by norm_num⟩

/-- C4 (amended): for a `step` from an in-bounds position other than the
target whose candidate one-cell move would leave the grid bounds or land on
an obstacle cell, the position is unchanged and the reward is the fixed
wall penalty −0.1, strictly more negative than the step cost −0.01 (when
the unchanged position is the target, the goal override of C2 applies
instead). -/
theorem claim_C4 (g : GridWorld) (action : Action)
    (hcur : inBounds g g.current_position)
    (hblock : ¬ inBounds g (candidate g action) ∨ candidate g action ∈ g.obstacles)
    (hntgt : g.current_position ≠ g.target_position) :
    (g.step action).1.current_position = g.current_position ∧
      (g.step action).2.reward = -1/10 ∧ (-1/10 : ℚ) < -1/100 := by
  obtain ⟨hx0, hxw, hy0, hyh⟩ := hcur
  cases action <;>
    · simp only [GridWorld.step, candidate, inBounds] at *
      rcases hblock with hb | hb <;>
        split_ifs <;> simp_all <;> first | omega | norm_num

/-- Witness for C4 (amended): moving up from the in-bounds non-target start
(0, 0) of a 2×2 grid is blocked by the boundary; the position stays (0, 0)
and the reward is the wall penalty. -/
theorem claim_C4_witness :
    ((GridWorld.init 2 2 (0, 0) (1, 1) []).step Action.up).1.current_position =
        (GridWorld.init 2 2 (0, 0) (1, 1) []).current_position ∧
      ((GridWorld.init 2 2 (0, 0) (1, 1) []).step Action.up).2.reward = -1/10 ∧
      (-1/10 : ℚ) < -1/100 :=
  claim_C4 (GridWorld.init 2 2 (0, 0) (1, 1) []) Action.up (by decide)
    (Or.inl (by decide)) (by decide)

/-- C5: every `step` increments the step counter by exactly 1 and reports
done = true whenever the incremented counter has reached `max_steps`; the
constructor sets `max_steps = height × width`; consequently, after a
`reset`, the n-th `step` call with n ≥ `max_steps` returns done = true
regardless of which actions were chosen, so no episode runs past
`max_steps` steps without done. -/
theorem claim_C5 :
    (∀ (g : GridWorld) (action : Action), (g.step action).1.steps = g.steps + 1) ∧
      (∀ (g : GridWorld) (action : Action),
        (g.step action).1.steps ≥ g.max_steps → (g.step action).2.done = true) ∧
      (∀ (height width : Int) (sp tp : Int × Int) (obs : List (Int × Int)),
        (GridWorld.init height width sp tp obs).max_steps = height * width) ∧
      (∀ (g : GridWorld) (actions : List Action) (action : Action),
        (actions.length : Int) + 1 ≥ g.max_steps →
          ((runGW g.reset actions).step action).2.done = true) := by
  refine ⟨step_steps, ?_, fun _ _ _ _ _ => rfl, ?_⟩
  · intro g action h
    rw [step_steps] at h
    exact step_done_of_timeout g action h
  · intro g actions action h
    apply step_done_of_timeout
    rw [runGW_steps, runGW_max_steps]
    have hreset : g.reset.steps = 0 := rfl
    have hresetm : g.reset.max_steps = g.max_steps := rfl
    rw [hreset, hresetm]
    omega

/-- Witness for C5: on a 1×1 grid (`max_steps = 1`) the very first step
after reset reports done = true. -/
theorem claim_C5_witness :
    ((runGW (GridWorld.init 1 1 (0, 0) (5, 5) []).reset []).step Action.up).2.done
      = true :=
  claim_C5.2.2.2 (GridWorld.init 1 1 (0, 0) (5, 5) []) [] Action.up (by decide)

/-- C10: for every `/act` request with done = true, the endpoint performs
the learning update and returns exactly the learned agent (so no new action
is selected and `update_memory` is not called) together with the literal
action string "stop" — outside the four-action wire set — and the agent's
current exploration rate. -/
theorem claim_C10 (choose : Agent → List Int → Action) (a : Agent)
    (position : List Int) (reward : ℚ) :
    act choose a position reward true =
      (a.learn position reward true,
        { action := "stop", epsilon := (a.learn position reward true).epsilon }) ∧
      ∀ action : Action, Action.toWire action ≠ "stop" := by
  constructor
  · rfl
  · intro action
    cases action <;> simp [Action.toWire]

/-- C7: importing the byte sequence produced by export restores the value
table and the exploration rate exactly, so the greedy action set of every
state and the known-versus-unseen status of every state key are identical
before and after the round trip (into whatever agent the import targets). -/
theorem claim_C7 (a b : Agent) :
    ∃ a₂ : Agent,
      b.from_bytes (ByteData.valid a.to_bytes) = Except.ok a₂ ∧
        a₂.q_table = a.q_table ∧
        a₂.epsilon = a.epsilon ∧
        (∀ s : List Int, a₂.best_actions s = a.best_actions s) ∧
        (∀ s : List Int, (alGet a₂.q_table s).isSome = (alGet a.q_table s).isSome) :=
  ⟨_, rfl, rfl, rfl, fun _ => rfl, fun _ => rfl⟩

/-- C9: loading a persisted byte sequence that fails to deserialize yields
a load failure distinct from not-found, and leaves the in-memory agent
(value table and exploration rate) unchanged. -/
theorem claim_C9 (a : Agent) (db : List (Nat × ByteData)) (model_id : Nat)
    (h : alGet db model_id = some ByteData.corrupt) :
    load_model a db model_id = (a, Except.error LoadError.deserialization) ∧
      LoadError.deserialization ≠ LoadError.notFound := by
  constructor
  · unfold load_model
    rw [h]
    rfl
  · intro hc
    exact LoadError.noConfusion hc

/-- Witness for C9: a store holding one corrupted blob under id 1; loading
id 1 into a fresh agent fails with the deserialization error and returns
the agent unchanged. -/
theorem claim_C9_witness :
    load_model Agent.init [(1, ByteData.corrupt)] 1 =
        (Agent.init, Except.error LoadError.deserialization) ∧
      LoadError.deserialization ≠ LoadError.notFound :=
  claim_C9 Agent.init [(1, ByteData.corrupt)] 1 (by rfl)

/-- C1: a `learn(next_state, reward, done)` call made while a pending
(previous_state, previous_action) pair is in memory updates
Q(previous_state, previous_action) to exactly old + α·(reward + γ·next_max
− old), where old is the prior entry (0.0 for an unseen state) and next_max
is 0 when done and otherwise the maximum of next_state's row (0 for an
unseen next_state, whose zero row is created); no other entry of the table
changes. The table is assumed to satisfy the complete-rows invariant of C8,
under which the source's dictionary lookups cannot raise. -/
theorem claim_C1 (a : Agent) (ps : List Int) (pa : Action) (s : List Int)
    (r : ℚ) (d : Bool) (hps : a.prev_state = some ps)
    (hpa : a.prev_action = some pa) (hcomplete : tableComplete a.q_table) :
    qVal (a.learn s r d).q_table ps pa =
      qVal a.q_table ps pa +
        a.alpha * ((r + a.gamma * (if d = true then 0 else rowMaxOf a.q_table s))
          - qVal a.q_table ps pa) ∧
      ∀ (s' : List Int) (act' : Action), ¬(s' = ps ∧ act' = pa) →
        qVal (a.learn s r d).q_table s' act' = qVal a.q_table s' act' := by
  cases d
  · rw [learn_not_done_eq a ps pa s r hps hpa]
    constructor
    · dsimp only
      rw [qVal_writeEntry_self]
      rw [getD_qVal, getD_rowMax, rowMaxOf_ensureRow, rowMaxOf_ensureRow,
        qVal_ensureRow]
      simp
    · intro s' act' hne
      dsimp only
      rw [qVal_writeEntry_other _ ps pa _ s' act' hne, qVal_ensureRow,
        qVal_ensureRow]
  · rw [learn_done_eq a ps pa s r hps hpa]
    constructor
    · dsimp only
      rw [qVal_writeEntry_self]
      rw [getD_qVal, qVal_ensureRow]
      simp
    · intro s' act' hne
      dsimp only
      rw [qVal_writeEntry_other _ ps pa _ s' act' hne, qVal_ensureRow]

/-- Witness for C1: a fresh agent that has remembered ([0, 0], up) learns
from reward 1 at next state [0, 1]; the updated entry obeys the TD formula
and an unrelated entry ([5, 5], down) is unchanged. -/
theorem claim_C1_witness :
    (qVal (pendingAgent.learn [0, 1] 1 false).q_table [0, 0] Action.up =
        qVal pendingAgent.q_table [0, 0] Action.up +
          pendingAgent.alpha *
            ((1 + pendingAgent.gamma *
                (if false = true then 0 else rowMaxOf pendingAgent.q_table [0, 1]))
              - qVal pendingAgent.q_table [0, 0] Action.up)) ∧
      qVal (pendingAgent.learn [0, 1] 1 false).q_table [5, 5] Action.down =
        qVal pendingAgent.q_table [5, 5] Action.down :=
  let h := claim_C1 pendingAgent [0, 0] Action.up [0, 1] 1 false rfl rfl
    (fun _ _ h' => Option.noConfusion h')
  ⟨h.1, h.2 [5, 5] Action.down (by decide)⟩

/-- Counterexample to C6 as stated: with ε_decay = 1 (inside the claimed
range (0, 1]) and ε = 1/2 ≥ ε_min = 1/20, a completed episode leaves the
exploration rate at 1/2 — it neither strictly decreases nor holds at its
floor. -/
theorem claim_C6_cex :
    (0 : ℚ) < decayOneAgent.epsilon_decay ∧ decayOneAgent.epsilon_decay ≤ 1 ∧
      decayOneAgent.epsilon_min ≤ decayOneAgent.epsilon ∧
      decayOneAgent.prev_state = some [0, 0] ∧
      decayOneAgent.prev_action = some Action.up ∧
      (decayOneAgent.learn [0, 1] 0 true).epsilon = decayOneAgent.epsilon ∧
      decayOneAgent.epsilon ≠ decayOneAgent.epsilon_min := by
  refine ⟨by norm_num [decayOneAgent], by norm_num [decayOneAgent],
    by norm_num [decayOneAgent], rfl, rfl, ?_, by norm_num [decayOneAgent]⟩
  rw [learn_done_eq decayOneAgent [0, 0] Action.up [0, 1] 0 rfl rfl]
  show max decayOneAgent.epsilon_min (decayOneAgent.epsilon * decayOneAgent.epsilon_decay)
    = decayOneAgent.epsilon
  rw [max_eq_right (by norm_num [decayOneAgent])]
  norm_num [decayOneAgent]

/-- C6 (amended): the exploration rate changes only in `learn` with
done = true while a pending pair is in memory, where it becomes
max(ε_min, ε·ε_decay) and the memory is cleared; it never drops below
ε_min; given ε_decay ∈ (0, 1], ε_min ≥ 0 and ε ≥ ε_min it never increases,
and when moreover ε_decay < 1 it strictly decreases or lands exactly on the
floor ε_min (with ε_decay = 1 the rate can stay put above the floor, which
is why the claim's "strictly decreases or holds at its floor" needed
ε_decay < 1); `learn` with done = false, `choose_action`, `get_q` and
`update_memory` leave it unchanged. -/
theorem claim_C6 :
    (∀ (a : Agent) (s : List Int), (a.choose_action_table s).epsilon = a.epsilon) ∧
      (∀ (a : Agent) (s : List Int) (action : Action),
        ((a.get_q s action).1).epsilon = a.epsilon) ∧
      (∀ (a : Agent) (s : List Int) (action : Action),
        (a.update_memory s action).epsilon = a.epsilon) ∧
      (∀ (a : Agent) (s : List Int) (r : ℚ),
        (a.learn s r false).epsilon = a.epsilon) ∧
      (∀ (a : Agent) (s : List Int) (r : ℚ) (d : Bool),
        a.prev_state = none ∨ a.prev_action = none → a.learn s r d = a) ∧
      (∀ (a : Agent) (ps : List Int) (pa : Action) (s : List Int) (r : ℚ),
        a.prev_state = some ps → a.prev_action = some pa →
          (a.learn s r true).epsilon = max a.epsilon_min (a.epsilon * a.epsilon_decay) ∧
            (a.learn s r true).prev_state = none ∧
            (a.learn s r true).prev_action = none ∧
            a.epsilon_min ≤ (a.learn s r true).epsilon ∧
            (a.epsilon_decay ≤ 1 → 0 ≤ a.epsilon_min → a.epsilon_min ≤ a.epsilon →
              (a.learn s r true).epsilon ≤ a.epsilon) ∧
            (0 < a.epsilon_decay → a.epsilon_decay < 1 → 0 ≤ a.epsilon_min →
              a.epsilon_min ≤ a.epsilon →
                ((a.learn s r true).epsilon < a.epsilon ∨
                  (a.learn s r true).epsilon = a.epsilon_min))) := by
  refine ⟨fun a s => rfl, fun a s act => rfl, fun a s act => rfl, ?_, ?_, ?_⟩
  · intro a s r
    rcases hps : a.prev_state with _ | ps
    · rw [learn_no_memory a s r false (Or.inl hps)]
    · rcases hpa : a.prev_action with _ | pa
      · rw [learn_no_memory a s r false (Or.inr hpa)]
      · rw [learn_not_done_eq a ps pa s r hps hpa]
  · intro a s r d h
    exact learn_no_memory a s r d h
  · intro a ps pa s r hps hpa
    have he : (a.learn s r true).epsilon
        = max a.epsilon_min (a.epsilon * a.epsilon_decay) := by
      rw [learn_done_eq a ps pa s r hps hpa]
    refine ⟨he, by rw [learn_done_eq a ps pa s r hps hpa],
      by rw [learn_done_eq a ps pa s r hps hpa], ?_, ?_, ?_⟩
    · rw [he]
      exact le_max_left _ _
    · intro hd hm hme
      rw [he]
      exact max_le hme (mul_le_of_le_one_right (le_trans hm hme) hd)
    · intro hd0 hd1 hm hme
      rw [he]
      rcases le_or_lt (a.epsilon * a.epsilon_decay) a.epsilon_min with hle | hlt
      · right
        exact max_eq_left hle
      · left
        rw [max_eq_right hlt.le]
        have heps : 0 < a.epsilon := by
          by_contra h0
          push_neg at h0
          have hz : a.epsilon = 0 := le_antisymm h0 (le_trans hm hme)
          rw [hz] at hlt
          simp at hlt
          exact absurd (lt_of_le_of_lt hm hlt) (by simp)
        exact mul_lt_of_lt_one_right heps hd1

/-- Witness for C6 (amended): the fresh agent with a pending transition
finishes an episode; its exploration rate becomes max(ε_min, ε·ε_decay),
its memory is cleared, and the rate stays at or above the floor. -/
theorem claim_C6_witness :
    (pendingAgent.learn [0, 1] 0 true).epsilon
        = max pendingAgent.epsilon_min (pendingAgent.epsilon * pendingAgent.epsilon_decay) ∧
      (pendingAgent.learn [0, 1] 0 true).prev_state = none ∧
      (pendingAgent.learn [0, 1] 0 true).prev_action = none ∧
      pendingAgent.epsilon_min ≤ (pendingAgent.learn [0, 1] 0 true).epsilon :=
  let h := claim_C6.2.2.2.2.2 pendingAgent [0, 0] Action.up [0, 1] 0 rfl rfl
  ⟨h.1, h.2.1, h.2.2.1, h.2.2.2.1⟩

theorem tableComplete_runCalls (calls : List AgentCall) (a : Agent)
    (h : tableComplete a.q_table) : tableComplete (runCalls a calls).q_table := by
  induction calls generalizing a with
  | nil => exact h
  | cons c tl ih =>
      simp only [runCalls, List.foldl_cons] at *
      exact ih (applyCall a c) (tableComplete_applyCall a c h)

/-- C8: starting from a fresh agent (empty table), after any sequence of
`choose_action`, `get_q`, `learn` and `update_memory` calls, every
state-key present in the value table maps all four actions to a value — no
partial rows ever exist. -/
theorem claim_C8 (calls : List AgentCall) (s : List Int) (row : QRow)
    (h : alGet (runCalls Agent.init calls).q_table s = some row)
    (act : Action) : (alGet row act).isSome = true :=
  tableComplete_runCalls calls Agent.init
    (fun _ _ h' => Option.noConfusion h') s row h act

/-- Witness for C8: after one `choose_action` on state [0, 0] the table
holds the zero row for [0, 0], and that row binds the up action. -/
theorem claim_C8_witness :
    alGet (runCalls Agent.init [AgentCall.chooseAction [0, 0]]).q_table [0, 0]
        = some zeroRow ∧
      (alGet zeroRow Action.up).isSome = true :=
  ⟨rfl, claim_C8 [AgentCall.chooseAction [0, 0]] [0, 0] zeroRow rfl Action.up⟩

end RLGrid
